import Mathlib

/-!
Verification of the ICMP file transfer tool (`src/tools/icmp_file_transfer.py`).

Bytes are modelled as `Nat` values kept below 256 by construction; byte
strings as `List Nat`.  Filenames decoded from UTF-8 are modelled as lists
of Unicode scalar values (`List Nat`).  Python functions returning `None`
on failure become `Option`-valued functions; an uncaught Python exception
is modelled as `none` at the point where the handler would raise.
-/

/-- Magic bytes identifying packets of this tool: b'OASI'. -/
def MAGIC : List Nat := [79, 65, 83, 73]

/-- Header: MAGIC(4) + TYPE(1) + SEQ(4). -/
def HEADER_SIZE : Nat := 9

def TYPE_METADATA : Nat := 1
def TYPE_DATA : Nat := 2
def TYPE_ACK : Nat := 3
def TYPE_FIN : Nat := 4

/-- Big-endian 4-byte encoding of an unsigned 32-bit integer, as produced by
`struct.pack` with format `!I`.  `struct.pack` raises for values ≥ 2^32;
callers stay in range, and the theorems carry that bound as a hypothesis,
so we reduce modulo 256 to keep every entry a byte. -/
def be32 (n : Nat) : List Nat :=
  [n / 16777216 % 256, n / 65536 % 256, n / 256 % 256, n % 256]

/-- Value of 4 big-endian bytes, as decoded by `struct.unpack` format `!I`. -/
def be32val (b0 b1 b2 b3 : Nat) : Nat :=
  ((b0 * 256 + b1) * 256 + b2) * 256 + b3

/-- `build_payload`: MAGIC + struct.pack('!BI', pkt_type, seq_num) + data.
`struct.pack` raises for a type byte ≥ 256; we reduce modulo 256 (callers
always pass 1..4) to keep the byte invariant. -/
def build_payload (pkt_type seq_num : Nat) (data : List Nat) : List Nat :=
  MAGIC ++ [pkt_type % 256] ++ be32 seq_num ++ data

/-- `parse_payload`: `None` if shorter than `HEADER_SIZE` or the first four
bytes differ from MAGIC; otherwise the triple (type, seq, data).  A list
with at least 9 elements always matches the first pattern, so the pattern
match is exactly the source's length check plus slicing. -/
def parse_payload (raw : List Nat) : Option (Nat × Nat × List Nat) :=
  match raw with
  | m0 :: m1 :: m2 :: m3 :: t :: s0 :: s1 :: s2 :: s3 :: data =>
      if [m0, m1, m2, m3] = MAGIC then some (t, be32val s0 s1 s2 s3, data)
      else none
  | _ => none

theorem be32val_be32 (n : Nat) (h : n < 4294967296) :
    be32val (n / 16777216 % 256) (n / 65536 % 256) (n / 256 % 256) (n % 256) = n := by
  unfold be32val
  omega

/-- C7: For every frame type fitting in one byte, every sequence number in
the unsigned 32-bit range, and every payload, decoding the encoding returns
exactly the same type, sequence, and payload. -/
theorem parse_build_payload_roundtrip (t seq : Nat) (data : List Nat)
    (ht : t < 256) (hseq : seq < 4294967296) :
    parse_payload (build_payload t seq data) = some (t, seq, data) := by
  have hmod : t % 256 = t := Nat.mod_eq_of_lt ht
  simp only [build_payload, MAGIC, be32, List.cons_append, List.nil_append,
    List.singleton_append, parse_payload, hmod]
  rw [if_pos trivial, be32val_be32 seq hseq]

/-- Witness for C7 at a concrete frame. -/
theorem parse_build_payload_roundtrip_witness :
    parse_payload (build_payload 2 70000 [10, 20]) = some (2, 70000, [10, 20]) :=
  parse_build_payload_roundtrip 2 70000 [10, 20] (by decide) (by decide)

/-- A Unicode scalar value: what a Python `str` character must be for
`str.encode('utf-8')` to succeed (codepoint below 0x110000, not a
surrogate). -/
def ValidScalar (c : Nat) : Prop := c < 1114112 ∧ (c < 55296 ∨ 57343 < c)

instance (c : Nat) : Decidable (ValidScalar c) := by
  unfold ValidScalar; infer_instance

/-- UTF-8 encoding of one scalar value (Python `str.encode('utf-8')`,
which raises on surrogates; theorems carry `ValidScalar` hypotheses). -/
def utf8EncodeChar (c : Nat) : List Nat :=
  if c < 128 then [c]
  else if c < 2048 then [192 + c / 64, 128 + c % 64]
  else if c < 65536 then [224 + c / 4096, 128 + c / 64 % 64, 128 + c % 64]
  else [240 + c / 262144, 128 + c / 4096 % 64, 128 + c / 64 % 64, 128 + c % 64]

/-- UTF-8 encoding of a string of scalar values. -/
def utf8Encode (s : List Nat) : List Nat := s.flatMap utf8EncodeChar

/-- Decode one scalar value from the front of a byte string, strictly, as
Python's UTF-8 decoder does: continuation bytes must lie in [0x80, 0xC0),
overlong encodings, surrogates and values above 0x10FFFF are rejected.
Returns the scalar and the remaining bytes. -/
def utf8DecodeOne (l : List Nat) : Option (Nat × List Nat) :=
  match l with
  | [] => none
  | b0 :: rest =>
    if b0 < 128 then some (b0, rest)
    else if b0 < 224 then
      match rest with
      | b1 :: rest2 =>
        if 192 ≤ b0 ∧ 128 ≤ b1 ∧ b1 < 192 then
          let c := (b0 - 192) * 64 + (b1 - 128)
          if 128 ≤ c then some (c, rest2) else none
        else none
      | [] => none
    else if b0 < 240 then
      match rest with
      | b1 :: b2 :: rest3 =>
        if 128 ≤ b1 ∧ b1 < 192 ∧ 128 ≤ b2 ∧ b2 < 192 then
          let c := (b0 - 224) * 4096 + (b1 - 128) * 64 + (b2 - 128)
          if 2048 ≤ c ∧ (c < 55296 ∨ 57343 < c) then some (c, rest3) else none
        else none
      | _ => none
    else
      match rest with
      | b1 :: b2 :: b3 :: rest4 =>
        if b0 < 248 ∧ 128 ≤ b1 ∧ b1 < 192 ∧ 128 ≤ b2 ∧ b2 < 192 ∧ 128 ≤ b3 ∧ b3 < 192 then
          let c := (b0 - 240) * 262144 + (b1 - 128) * 4096 + (b2 - 128) * 64 + (b3 - 128)
          if 65536 ≤ c ∧ c < 1114112 then some (c, rest4) else none
        else none
      | _ => none

theorem utf8DecodeOne_shrinks (l : List Nat) (c : Nat) (rest : List Nat)
    (h : utf8DecodeOne l = some (c, rest)) : rest.length < l.length := by
  unfold utf8DecodeOne at h
  repeat' split at h
  all_goals simp_all
  all_goals omega

/-- The decoding loop, with explicit fuel so that it is structurally
recursive (and hence evaluates inside the kernel).  Each step of
`utf8DecodeOne` consumes at least one byte, so `l.length` steps always
suffice; `utf8Decode` below supplies exactly that much fuel, and
`utf8DecodeFuel_congr` shows any sufficient fuel gives the same result. -/
def utf8DecodeFuel : Nat → List Nat → Option (List Nat)
  | _, [] => some []
  | 0, _ :: _ => none
  | fuel + 1, b :: bs =>
    match utf8DecodeOne (b :: bs) with
    | some (c, rest) => (utf8DecodeFuel fuel rest).map (List.cons c)
    | none => none

/-- Strict UTF-8 decoding of a whole byte string (Python
`bytes.decode('utf-8')`); `none` models `UnicodeDecodeError`. -/
def utf8Decode (l : List Nat) : Option (List Nat) := utf8DecodeFuel l.length l

theorem utf8DecodeFuel_congr (fuel1 fuel2 : Nat) (l : List Nat)
    (h1 : l.length ≤ fuel1) (h2 : l.length ≤ fuel2) :
    utf8DecodeFuel fuel1 l = utf8DecodeFuel fuel2 l := by
  induction fuel1 generalizing fuel2 l with
  | zero =>
    match l with
    | [] => cases fuel2 <;> rfl
    | b :: bs => simp at h1
  | succ fuel ih =>
    match l with
    | [] => cases fuel2 <;> rfl
    | b :: bs =>
      match fuel2 with
      | 0 => simp at h2
      | fuel2 + 1 =>
        show (match utf8DecodeOne (b :: bs) with
          | some (c, rest) => (utf8DecodeFuel fuel rest).map (List.cons c)
          | none => none) = (match utf8DecodeOne (b :: bs) with
          | some (c, rest) => (utf8DecodeFuel fuel2 rest).map (List.cons c)
          | none => none)
        match hone : utf8DecodeOne (b :: bs) with
        | none => rfl
        | some (c, rest) =>
          have hlt := utf8DecodeOne_shrinks _ _ _ hone
          simp only [List.length_cons] at h1 h2 hlt
          dsimp only
          rw [ih fuel2 rest (by omega) (by omega)]

theorem utf8Decode_step (l : List Nat) (c : Nat) (rest : List Nat)
    (h : utf8DecodeOne l = some (c, rest)) :
    utf8Decode l = (utf8Decode rest).map (List.cons c) := by
  have hlt := utf8DecodeOne_shrinks _ _ _ h
  match l with
  | [] => simp [utf8DecodeOne] at h
  | b :: bs =>
    simp only [utf8Decode, List.length_cons]
    show (match utf8DecodeOne (b :: bs) with
      | some (c, rest) => (utf8DecodeFuel bs.length rest).map (List.cons c)
      | none => none) = (utf8DecodeFuel rest.length rest).map (List.cons c)
    rw [h]
    dsimp only
    rw [utf8DecodeFuel_congr bs.length rest.length rest (by simp at hlt; omega) le_rfl]

theorem utf8DecodeOne_encodeChar (c : Nat) (bs : List Nat) (h : ValidScalar c) :
    utf8DecodeOne (utf8EncodeChar c ++ bs) = some (c, bs) := by
  obtain ⟨h1, h2⟩ := h
  unfold utf8EncodeChar
  by_cases hc1 : c < 128
  · simp only [if_pos hc1, List.cons_append, List.nil_append, utf8DecodeOne]
  · by_cases hc2 : c < 2048
    · simp only [if_neg hc1, if_pos hc2, List.cons_append, List.nil_append, utf8DecodeOne]
      rw [if_neg (by omega), if_pos (by omega), if_pos (by omega), if_pos (by omega)]
      have : (192 + c / 64 - 192) * 64 + (128 + c % 64 - 128) = c := by omega
      rw [this]
    · by_cases hc3 : c < 65536
      · simp only [if_neg hc1, if_neg hc2, if_pos hc3, List.cons_append, List.nil_append,
          utf8DecodeOne]
        rw [if_neg (by omega), if_neg (by omega), if_pos (by omega), if_pos (by omega)]
        have : (224 + c / 4096 - 224) * 4096 + (128 + c / 64 % 64 - 128) * 64 +
            (128 + c % 64 - 128) = c := by omega
        rw [this, if_pos (by omega)]
      · simp only [if_neg hc1, if_neg hc2, if_neg hc3, List.cons_append, List.nil_append,
          utf8DecodeOne]
        rw [if_neg (by omega), if_neg (by omega), if_neg (by omega), if_pos (by omega)]
        have : (240 + c / 262144 - 240) * 262144 + (128 + c / 4096 % 64 - 128) * 4096 +
            (128 + c / 64 % 64 - 128) * 64 + (128 + c % 64 - 128) = c := by omega
        rw [this, if_pos (by omega)]

theorem utf8Decode_encode_append (s : List Nat) (bs : List Nat)
    (h : ∀ c ∈ s, ValidScalar c) :
    utf8Decode (utf8Encode s ++ bs) = (utf8Decode bs).map (s ++ ·) := by
  induction s with
  | nil =>
    simp only [utf8Encode, List.flatMap_nil, List.nil_append]
    cases utf8Decode bs <;> simp
  | cons c s ih =>
    have hc : ValidScalar c := h c (by simp)
    have hs : ∀ x ∈ s, ValidScalar x := fun x hx => h x (by simp [hx])
    have henc : utf8Encode (c :: s) ++ bs = utf8EncodeChar c ++ (utf8Encode s ++ bs) := by
      simp [utf8Encode, List.flatMap_cons, List.append_assoc]
    rw [henc, utf8Decode_step _ c _ (utf8DecodeOne_encodeChar c _ hc), ih hs]
    cases utf8Decode bs <;> simp

/-- UTF-8 roundtrip: decoding the encoding of a string of valid scalar
values returns the string. -/
theorem utf8Decode_utf8Encode (s : List Nat) (h : ∀ c ∈ s, ValidScalar c) :
    utf8Decode (utf8Encode s) = some s := by
  have h0 : utf8Decode ([] : List Nat) = some [] := rfl
  have := utf8Decode_encode_append s [] h
  rw [List.append_nil] at this
  rw [this, h0]
  simp

/-- `encode_metadata`: struct.pack('!I', total_chunks) + filename.encode('utf-8'). -/
def encode_metadata (total_chunks : Nat) (filename : List Nat) : List Nat :=
  be32 total_chunks ++ utf8Encode filename

/-- `decode_metadata`: `None` if fewer than 4 bytes; otherwise the unsigned
32-bit big-endian total followed by the UTF-8 decoded remainder, `None` on
`UnicodeDecodeError`.  Lists shorter than 4 fall through to the second
pattern, matching the source's length check. -/
def decode_metadata (data : List Nat) : Option (Nat × List Nat) :=
  match data with
  | b0 :: b1 :: b2 :: b3 :: rest =>
      (utf8Decode rest).map (fun filename => (be32val b0 b1 b2 b3, filename))
  | _ => none

/-- `'..' in filename`: the two-byte pattern occurs as a contiguous
substring. -/
def hasDotDot : List Nat → Bool
  | [] => false
  | [_] => false
  | a :: b :: rest => (a = 46 && b = 46) || hasDotDot (b :: rest)

/-- `os.path.basename` on POSIX: the part after the last '/' (47). -/
def pyBasename (s : List Nat) : List Nat :=
  (s.reverse.takeWhile (fun c => c ≠ 47)).reverse

/-- `sanitize_filename`: `None` for an empty name, a name containing '/'
(47), '\' (92) or the substring "..", or an empty basename; otherwise the
basename. -/
def sanitize_filename (filename : List Nat) : Option (List Nat) :=
  if filename = [] then none
  else if 47 ∈ filename ∨ 92 ∈ filename ∨ hasDotDot filename then none
  else
    let name := pyBasename filename
    if name = [] then none else some name

theorem decode_encode_metadata (total : Nat) (filename : List Nat)
    (htotal : total < 4294967296) (hname : ∀ c ∈ filename, ValidScalar c) :
    decode_metadata (encode_metadata total filename) = some (total, filename) := by
  simp only [encode_metadata, be32, List.cons_append, List.nil_append, decode_metadata,
    utf8Decode_utf8Encode filename hname]
  rw [be32val_be32 total htotal]
  rfl

/-- C8: metadata decode inverts metadata encode for every unsigned 32-bit
chunk count and every valid-UTF-8 filename; decoding returns `none`
(without crashing) for inputs shorter than 4 bytes, and for inputs whose
bytes after the first 4 are not valid UTF-8. -/
theorem decode_metadata_spec (total : Nat) (filename : List Nat) (data : List Nat)
    (htotal : total < 4294967296) (hname : ∀ c ∈ filename, ValidScalar c) :
    decode_metadata (encode_metadata total filename) = some (total, filename) ∧
    (data.length < 4 → decode_metadata data = none) ∧
    (utf8Decode (data.drop 4) = none → decode_metadata data = none) := by
  refine ⟨decode_encode_metadata total filename htotal hname, ?_, ?_⟩
  · intro hlen
    match data, hlen with
    | [], _ => rfl
    | [_], _ => rfl
    | [_, _], _ => rfl
    | [_, _, _], _ => rfl
  · intro hbad
    match data with
    | [] => rfl
    | [_] => rfl
    | [_, _] => rfl
    | [_, _, _] => rfl
    | b0 :: b1 :: b2 :: b3 :: rest =>
      simp only [List.drop_succ_cons, List.drop_zero] at hbad
      simp [decode_metadata, hbad]

/-- Witness for C8: roundtrip for total 3, filename "α.txt" (a 2-byte UTF-8
character followed by ASCII); decode failure on a 2-byte input and on a
stray continuation byte after the count. -/
theorem decode_metadata_spec_witness :
    decode_metadata (encode_metadata 3 [945, 46, 116, 120, 116]) =
      some (3, [945, 46, 116, 120, 116]) ∧
    (([0, 9] : List Nat).length < 4 → decode_metadata [0, 9] = none) ∧
    (utf8Decode (([0, 0, 0, 1, 128] : List Nat).drop 4) = none →
      decode_metadata [0, 0, 0, 1, 128] = none) :=
  decode_metadata_spec 3 [945, 46, 116, 120, 116] [0, 9] (by decide) (by decide)
    |>.imp id (fun h => ⟨h.1, fun _ => (decode_metadata_spec 3 [] [0, 0, 0, 1, 128]
      (by decide) (by decide)).2.2 (by decide)⟩)

theorem hasDotDot_iff (s : List Nat) :
    hasDotDot s = true ↔ ∃ l r, s = l ++ 46 :: 46 :: r := by
  induction s with
  | nil =>
    simp only [hasDotDot]
    constructor
    · intro h; exact absurd h (by simp)
    · rintro ⟨l, r, hl⟩; exact absurd hl (by simp)
  | cons a t ih =>
    match t with
    | [] =>
      simp only [hasDotDot]
      constructor
      · intro h; exact absurd h (by simp)
      · rintro ⟨l, r, hl⟩
        match l with
        | [] => simp at hl
        | x :: xs => simp at hl
    | b :: t2 =>
      simp only [hasDotDot, Bool.or_eq_true, Bool.and_eq_true, decide_eq_true_eq]
      rw [ih]
      constructor
      · rintro (⟨ha, hb⟩ | ⟨l, r, hl⟩)
        · exact ⟨[], t2, by simp [ha, hb]⟩
        · exact ⟨a :: l, r, by simp [hl]⟩
      · rintro ⟨l, r, hl⟩
        match l with
        | [] =>
          simp only [List.nil_append, List.cons.injEq] at hl
          exact Or.inl ⟨hl.1, hl.2.1⟩
        | x :: xs =>
          simp only [List.cons_append, List.cons.injEq] at hl
          exact Or.inr ⟨xs, r, hl.2⟩

theorem takeWhile_all (p : Nat → Bool) (l : List Nat) (h : ∀ x ∈ l, p x) :
    l.takeWhile p = l := by
  induction l with
  | nil => rfl
  | cons a t ih =>
    rw [List.takeWhile_cons, if_pos (h a (by simp))]
    rw [ih (fun x hx => h x (by simp [hx]))]

theorem pyBasename_no_slash (s : List Nat) (h : 47 ∉ s) : pyBasename s = s := by
  unfold pyBasename
  rw [takeWhile_all _ _ (fun x hx => ?_), List.reverse_reverse]
  have : x ∈ s := List.mem_reverse.mp hx
  simp only [ne_eq, decide_eq_true_eq]
  intro hx47
  exact h (hx47 ▸ this)

/-- C6: `sanitize_filename` returns `none` exactly when the input is empty
or contains '/' (47), '\' (92), or the two-character substring ".."
(46, 46); every accepted input is returned unchanged. -/
theorem sanitize_filename_spec (s : List Nat) :
    (sanitize_filename s = none ↔
      (s = [] ∨ 47 ∈ s ∨ 92 ∈ s ∨ ∃ l r, s = l ++ 46 :: 46 :: r)) ∧
    (∀ t, sanitize_filename s = some t → t = s) := by
  unfold sanitize_filename
  by_cases hempty : s = []
  · rw [if_pos hempty]
    exact ⟨⟨fun _ => Or.inl hempty, fun _ => rfl⟩, fun t ht => by simp at ht⟩
  · rw [if_neg hempty]
    by_cases hbad : 47 ∈ s ∨ 92 ∈ s ∨ hasDotDot s
    · rw [if_pos hbad]
      refine ⟨⟨fun _ => ?_, fun _ => rfl⟩, fun t ht => by simp at ht⟩
      rcases hbad with h | h | h
      · exact Or.inr (Or.inl h)
      · exact Or.inr (Or.inr (Or.inl h))
      · exact Or.inr (Or.inr (Or.inr ((hasDotDot_iff s).mp h)))
    · rw [if_neg hbad]
      push_neg at hbad
      obtain ⟨h47, h92, hdd⟩ := hbad
      have hbase : pyBasename s = s := pyBasename_no_slash s h47
      simp only [hbase]
      rw [if_neg hempty]
      refine ⟨⟨fun h => by simp at h, fun h => ?_⟩, fun t ht => by
        simpa using ht.symm⟩
      rcases h with h | h | h | ⟨l, r, hl⟩
      · exact absurd h hempty
      · exact absurd h h47
      · exact absurd h h92
      · exact absurd ((hasDotDot_iff s).mpr ⟨l, r, hl⟩) (by simp [hdd])

/-- Witness for C6: "f.txt" is accepted unchanged; "" is rejected;
"../x" is rejected. -/
theorem sanitize_filename_spec_witness :
    (([102, 46, 116, 120, 116] : List Nat) = [102, 46, 116, 120, 116]) ∧
    sanitize_filename [] = none ∧
    sanitize_filename [46, 46, 47, 120] = none :=
  ⟨(sanitize_filename_spec [102, 46, 116, 120, 116]).2 [102, 46, 116, 120, 116] (by decide),
   (sanitize_filename_spec []).1.mpr (Or.inl rfl),
   (sanitize_filename_spec [46, 46, 47, 120]).1.mpr
     (Or.inr (Or.inr (Or.inr ⟨[], [47, 120], rfl⟩)))⟩

/-- `ICMPFileClient.__init__`: rejects `payload_size ≤ HEADER_SIZE` with a
`ValueError` before any transfer begins. -/
def clientInitCheck (payload_size : Nat) : Except String Unit :=
  if payload_size ≤ HEADER_SIZE then
    Except.error "payload_size must be greater than 9"
  else Except.ok ()

/-- The chunk count computed by `ICMPFileClient.send_file`:
`((file_size + data_per_chunk - 1) // data_per_chunk) if file_size > 0
else 0`. -/
def clientTotalChunks (file_size data_per_chunk : Nat) : Nat :=
  if 0 < file_size then (file_size + data_per_chunk - 1) / data_per_chunk else 0

/-- C9: with `payload_size > HEADER_SIZE` the client computes
`total_chunks = ⌈file_size / (payload_size - HEADER_SIZE)⌉` (0 for the
empty file) and construction succeeds; with `payload_size ≤ HEADER_SIZE`
construction fails with a configuration error. -/
theorem clientTotalChunks_spec (payload_size file_size : Nat) :
    (HEADER_SIZE < payload_size →
      clientTotalChunks file_size (payload_size - HEADER_SIZE) =
        file_size ⌈/⌉ (payload_size - HEADER_SIZE) ∧
      clientTotalChunks 0 (payload_size - HEADER_SIZE) = 0 ∧
      clientInitCheck payload_size = Except.ok ()) ∧
    (payload_size ≤ HEADER_SIZE →
      clientInitCheck payload_size =
        Except.error "payload_size must be greater than 9") := by
  constructor
  · intro hps
    refine ⟨?_, rfl, ?_⟩
    · show clientTotalChunks file_size (payload_size - HEADER_SIZE) =
        (file_size + (payload_size - HEADER_SIZE) - 1) / (payload_size - HEADER_SIZE)
      unfold clientTotalChunks
      by_cases hfs : 0 < file_size
      · rw [if_pos hfs]
      · rw [if_neg hfs]
        have hcs : 0 < payload_size - HEADER_SIZE := by omega
        have hfs0 : file_size = 0 := by omega
        subst hfs0
        rw [Nat.zero_add, Nat.div_eq_of_lt (by omega)]
    · unfold clientInitCheck
      rw [if_neg (by omega)]
  · intro hps
    unfold clientInitCheck
    rw [if_pos hps]

/-- Witness for C9: file_size=100, payload_size=20 gives 10 chunks
(spec example), and payload_size=9 is rejected at construction. -/
theorem clientTotalChunks_spec_witness :
    clientTotalChunks 100 (20 - HEADER_SIZE) = 100 ⌈/⌉ (20 - HEADER_SIZE) ∧
    clientInitCheck 9 = Except.error "payload_size must be greater than 9" :=
  ⟨((clientTotalChunks_spec 20 100).1 (by decide)).1,
   (clientTotalChunks_spec 9 0).2 (by decide)⟩

/-- One frame as the client sends it: type, sequence, payload bytes.
Rebuilt identically on every retry from the same arguments in
`_send_with_retry`. -/
structure OutFrame where
  ftype : Nat
  seq : Nat
  data : List Nat
  deriving Repr, DecidableEq

/-- The attempt loop of `_send_with_retry`: `attempt` is the current loop
index, `remaining` the number of loop iterations left (initially
`max_retries`); `ackArrives attempt` tells whether the ACK wait succeeds
on that attempt.  Returns the list of transmissions performed and `ok` on
success or `error seq` for the `TimeoutError` naming the stuck
sequence. -/
def sendAttempts (f : OutFrame) (ackArrives : Nat → Bool) :
    Nat → Nat → List OutFrame × Except Nat Unit
  | _, 0 => ([], Except.error f.seq)
  | attempt, remaining + 1 =>
    if ackArrives attempt then ([f], Except.ok ())
    else
      let r := sendAttempts f ackArrives (attempt + 1) remaining
      (f :: r.1, r.2)

/-- `_send_with_retry`: up to `max_retries` send attempts, each rebuilding
and transmitting the same frame, then waiting for the matching ACK. -/
def send_with_retry (max_retries : Nat) (ackArrives : Nat → Bool) (f : OutFrame) :
    List OutFrame × Except Nat Unit :=
  sendAttempts f ackArrives 0 max_retries

/-- The client's outgoing frame sequence with the abort semantics of
`send_file`: frames are sent one after the other through
`_send_with_retry`; a `TimeoutError` propagates and stops the transfer,
so no later frame is ever attempted. -/
def send_frames (max_retries : Nat) (ack : OutFrame → Nat → Bool) :
    List OutFrame → List OutFrame × Except Nat Unit
  | [] => ([], Except.ok ())
  | f :: rest =>
    let r := send_with_retry max_retries (ack f) f
    match r.2 with
    | Except.error e => (r.1, Except.error e)
    | Except.ok _ =>
      let r2 := send_frames max_retries ack rest
      (r.1 ++ r2.1, r2.2)

theorem sendAttempts_never_acked (f : OutFrame) (ack : Nat → Bool)
    (hack : ∀ k, ack k = false) :
    ∀ remaining attempt, sendAttempts f ack attempt remaining =
      (List.replicate remaining f, Except.error f.seq) := by
  intro remaining
  induction remaining with
  | zero => intro attempt; rfl
  | succ n ih =>
    intro attempt
    show (if ack attempt then ([f], Except.ok ())
      else
        let r := sendAttempts f ack (attempt + 1) n
        (f :: r.1, r.2)) = (List.replicate (n + 1) f, Except.error f.seq)
    rw [hack attempt, if_neg (by simp), ih (attempt + 1)]
    simp [List.replicate_succ]

/-- C5: if the ACK for frame `f` never arrives while every earlier frame
was acknowledged, the client transmits `f` exactly `max_retries` times
(identical frame each attempt), raises the timeout error naming `f`'s
sequence number, and never sends any later frame. -/
theorem send_with_retry_exhaustion (max_retries : Nat) (ack : OutFrame → Nat → Bool)
    (pre : List OutFrame) (f : OutFrame) (post : List OutFrame)
    (hf : ∀ k, ack f k = false)
    (hpre : ∀ g ∈ pre, (send_with_retry max_retries (ack g) g).2 = Except.ok ()) :
    send_frames max_retries ack (pre ++ f :: post) =
      (pre.flatMap (fun g => (send_with_retry max_retries (ack g) g).1) ++
        List.replicate max_retries f, Except.error f.seq) := by
  induction pre with
  | nil =>
    simp only [List.nil_append, List.flatMap_nil, send_frames]
    rw [show send_with_retry max_retries (ack f) f =
      (List.replicate max_retries f, Except.error f.seq) from
      sendAttempts_never_acked f (ack f) hf max_retries 0]
  | cons g pre ih =>
    have hg : (send_with_retry max_retries (ack g) g).2 = Except.ok () :=
      hpre g (by simp)
    have hrest : ∀ x ∈ pre, (send_with_retry max_retries (ack x) x).2 = Except.ok () :=
      fun x hx => hpre x (by simp [hx])
    simp only [List.cons_append, send_frames, hg, List.append_eq, ih hrest,
      List.flatMap_cons, List.append_assoc]

/-- Witness for C5: max_retries = 3, the first frame (seq 0) is always
acknowledged, the second (seq 5) never; the trace is one send of the
first frame then three identical sends of the second, ending in the
timeout error naming sequence 5, with the third frame never sent. -/
theorem send_with_retry_exhaustion_witness :
    send_frames 3 (fun g _ => g.seq == 0)
      ([⟨1, 0, []⟩] ++ ⟨2, 5, [9]⟩ :: [⟨4, 6, []⟩]) =
      ([⟨1, 0, []⟩].flatMap
          (fun g => (send_with_retry 3 (fun _ => g.seq == 0) g).1) ++
        List.replicate 3 ⟨2, 5, [9]⟩, Except.error (OutFrame.seq ⟨2, 5, [9]⟩)) :=
  send_with_retry_exhaustion 3 (fun g _ => g.seq == 0) [⟨1, 0, []⟩] ⟨2, 5, [9]⟩
    [⟨4, 6, []⟩] (fun _ => rfl)
    (fun g hg => by rw [List.mem_singleton] at hg; subst hg; rfl)

/-- Server state (`ICMPFileServer`).  `received_chunks` models the Python
dict as an association list with unique keys (insertion removes the old
binding first, so lookup semantics match dict assignment).  `written` is
the byte stream written to the currently open output file; `output_open`
models `output_file is not None`; `acks` is the trace of ACK sequence
numbers sent; `stopped` models `stop_event`. -/
structure SrvState where
  received_chunks : List (Nat × List Nat)
  filename : Option (List Nat)
  total_chunks : Nat
  write_cursor : Nat
  output_open : Bool
  written : List Nat
  acks : List Nat
  stopped : Bool
  deriving Repr, DecidableEq

/-- `ICMPFileServer.__init__`. -/
def initServer : SrvState :=
  { received_chunks := []
    filename := none
    total_chunks := 0
    write_cursor := 1
    output_open := false
    written := []
    acks := []
    stopped := false }

/-- Dict lookup: `received_chunks[seq]` / `seq in received_chunks`. -/
def lookupChunk (m : List (Nat × List Nat)) (k : Nat) : Option (List Nat) :=
  (m.find? (fun e => e.1 == k)).map (fun e => e.2)

/-- Dict deletion: `received_chunks.pop(seq)` removes the binding. -/
def eraseChunk (m : List (Nat × List Nat)) (k : Nat) : List (Nat × List Nat) :=
  m.filter (fun e => e.1 != k)

/-- Dict assignment: `received_chunks[seq] = data` (last writer wins). -/
def insertChunk (m : List (Nat × List Nat)) (k : Nat) (v : List Nat) :
    List (Nat × List Nat) :=
  (k, v) :: eraseChunk m k

/-- The `while self.write_cursor in self.received_chunks` loop of
`_flush_chunks`, with explicit fuel so that it is structurally recursive
(and hence evaluates inside the kernel).  Every iteration removes the
`write_cursor` binding from the map, so `m.length` iterations always
suffice; `flush_chunks` below supplies exactly that much fuel, and
`flushLoop_spec` proves the loop ends only at a missing cursor key. -/
def flushLoop : Nat → Nat → List (Nat × List Nat) → List Nat →
    Nat × List (Nat × List Nat) × List Nat
  | 0, wc, m, out => (wc, m, out)
  | fuel + 1, wc, m, out =>
    match lookupChunk m wc with
    | some p => flushLoop fuel (wc + 1) (eraseChunk m wc) (out ++ p)
    | none => (wc, m, out)

/-- `_flush_chunks`: a no-op when no output file is open; otherwise write
pending chunks in cursor order as long as the cursor's chunk is
present. -/
def flush_chunks (st : SrvState) : SrvState :=
  if st.output_open then
    let r := flushLoop st.received_chunks.length st.write_cursor st.received_chunks
      st.written
    { st with write_cursor := r.1, received_chunks := r.2.1, written := r.2.2 }
  else st

/-- `_send_ack`: record the ACK sequence sent back to the client. -/
def send_ack (st : SrvState) (seq : Nat) : SrvState :=
  { st with acks := st.acks ++ [seq] }

/-- `_handle_metadata`: reject undecodable metadata and unsafe filenames
silently; otherwise reset the session state, truncate/open the output
file, and ACK. -/
def handle_metadata (st : SrvState) (seq : Nat) (data : List Nat) : SrvState :=
  match decode_metadata data with
  | none => st
  | some (total, name) =>
    match sanitize_filename name with
    | none => st
    | some safe =>
      send_ack
        { st with total_chunks := total
                  filename := some safe
                  received_chunks := []
                  write_cursor := 1
                  output_open := true
                  written := [] } seq

/-- The `TYPE_DATA` branch of `_handle_packet`: store the chunk, flush,
then ACK.  There is no check that a session is open or that `seq` lies in
1..total_chunks. -/
def handle_data (st : SrvState) (seq : Nat) (data : List Nat) : SrvState :=
  send_ack
    (flush_chunks { st with received_chunks := insertChunk st.received_chunks seq data })
    seq

/-- The `TYPE_FIN` branch of `_handle_packet`: ACK, final flush, close the
file, then log.  The success log evaluates
`os.path.join(self.output_dir, self.filename)`; with no filename recorded
(no METADATA ever accepted) that raises `TypeError`, modelled as `none`.
Otherwise the stop event is set. -/
def handle_fin (st : SrvState) (seq : Nat) : Option SrvState :=
  let st1 := flush_chunks (send_ack st seq)
  let st2 := { st1 with output_open := false }
  if st2.total_chunks < st2.write_cursor then
    match st2.filename with
    | none => none
    | some _ => some { st2 with stopped := true }
  else some { st2 with stopped := true }

/-- `_handle_packet` after `is_valid_packet` and `parse_payload` have
accepted the frame: dispatch on the parsed type; ACK frames and unknown
types fall through with no effect. -/
def handle_packet (st : SrvState) (pkt_type seq : Nat) (data : List Nat) :
    Option SrvState :=
  if pkt_type = TYPE_METADATA then some (handle_metadata st seq data)
  else if pkt_type = TYPE_DATA then some (handle_data st seq data)
  else if pkt_type = TYPE_FIN then handle_fin st seq
  else some st

/-- The server's receive loop over a list of parsed frames
(type, seq, data); an uncaught exception (`none`) stops the loop. -/
def runServer (st : SrvState) : List (Nat × Nat × List Nat) → Option SrvState
  | [] => some st
  | f :: rest =>
    match handle_packet st f.1 f.2.1 f.2.2 with
    | some st1 => runServer st1 rest
    | none => none

theorem lookupChunk_nil (k : Nat) : lookupChunk [] k = none := rfl

theorem lookupChunk_cons (e : Nat × List Nat) (t : List (Nat × List Nat)) (k : Nat) :
    lookupChunk (e :: t) k = if e.1 = k then some e.2 else lookupChunk t k := by
  unfold lookupChunk
  by_cases he : e.1 = k
  · rw [if_pos he, List.find?_cons_of_pos _ (by simp [he])]
    rfl
  · rw [if_neg he, List.find?_cons_of_neg _ (by simp [he])]

theorem eraseChunk_cons (e : Nat × List Nat) (t : List (Nat × List Nat)) (k : Nat) :
    eraseChunk (e :: t) k =
      if e.1 = k then eraseChunk t k else e :: eraseChunk t k := by
  unfold eraseChunk
  by_cases he : e.1 = k
  · rw [if_pos he, List.filter_cons_of_neg (by simp [he])]
  · rw [if_neg he, List.filter_cons_of_pos (by simp [he])]

theorem lookupChunk_erase_self (m : List (Nat × List Nat)) (k : Nat) :
    lookupChunk (eraseChunk m k) k = none := by
  induction m with
  | nil => rfl
  | cons e t ih =>
    rw [eraseChunk_cons]
    by_cases he : e.1 = k
    · rw [if_pos he]; exact ih
    · rw [if_neg he, lookupChunk_cons, if_neg he]; exact ih

theorem lookupChunk_erase_ne (m : List (Nat × List Nat)) (k k' : Nat) (h : k' ≠ k) :
    lookupChunk (eraseChunk m k) k' = lookupChunk m k' := by
  induction m with
  | nil => rfl
  | cons e t ih =>
    rw [eraseChunk_cons, lookupChunk_cons]
    by_cases he : e.1 = k
    · rw [if_pos he, if_neg (by omega), ih]
    · rw [if_neg he, lookupChunk_cons, ih]

theorem lookupChunk_insert_self (m : List (Nat × List Nat)) (k : Nat) (v : List Nat) :
    lookupChunk (insertChunk m k v) k = some v := by
  unfold insertChunk
  rw [lookupChunk_cons, if_pos rfl]

theorem lookupChunk_insert_ne (m : List (Nat × List Nat)) (k k' : Nat) (v : List Nat)
    (h : k' ≠ k) : lookupChunk (insertChunk m k v) k' = lookupChunk m k' := by
  unfold insertChunk
  rw [lookupChunk_cons, if_neg (by omega), lookupChunk_erase_ne m k k' h]

theorem eraseChunk_length_lt (m : List (Nat × List Nat)) (k : Nat)
    (h : lookupChunk m k ≠ none) : (eraseChunk m k).length < m.length := by
  induction m with
  | nil => exact absurd rfl h
  | cons e t ih =>
    rw [eraseChunk_cons]
    by_cases he : e.1 = k
    · rw [if_pos he]
      have := List.length_filter_le (fun e => e.1 != k) t
      simp only [eraseChunk] at *
      simp only [List.length_cons]
      omega
    · rw [if_neg he]
      rw [lookupChunk_cons, if_neg he] at h
      simp only [List.length_cons]
      exact Nat.succ_lt_succ (ih h)

theorem flatMap_congr_mem (l : List Nat) (f g : Nat → List Nat)
    (h : ∀ i ∈ l, f i = g i) : l.flatMap f = l.flatMap g := by
  induction l with
  | nil => rfl
  | cons a t ih =>
    rw [List.flatMap_cons, List.flatMap_cons, h a (by simp),
      ih (fun i hi => h i (by simp [hi]))]

/-- Postcondition of the `_flush_chunks` while loop: given enough fuel,
the cursor only advances, every position between the old and new cursor
had a pending chunk, the bytes appended are exactly those chunks in
cursor order, the loop stops at the first missing key, and the final map
is the initial one minus the flushed interval. -/
theorem flushLoop_spec (fuel : Nat) :
    ∀ (wc : Nat) (m : List (Nat × List Nat)) (out : List Nat)
      (wcf : Nat) (mf : List (Nat × List Nat)) (outf : List Nat),
      m.length ≤ fuel → flushLoop fuel wc m out = (wcf, mf, outf) →
      wc ≤ wcf ∧
      (∀ i, wc ≤ i → i < wcf → lookupChunk m i ≠ none) ∧
      outf = out ++ (List.range' wc (wcf - wc)).flatMap
        (fun i => (lookupChunk m i).getD []) ∧
      lookupChunk m wcf = none ∧
      (∀ k, lookupChunk mf k =
        if wc ≤ k ∧ k < wcf then none else lookupChunk m k) := by
  induction fuel with
  | zero =>
    intro wc m out wcf mf outf hlen hr
    have hm : m = [] := List.length_eq_zero.mp (by omega)
    subst hm
    simp only [flushLoop] at hr
    obtain ⟨h1, h2, h3⟩ : wc = wcf ∧ ([] : List (Nat × List Nat)) = mf ∧ out = outf := by
      constructor
      · exact congrArg Prod.fst hr
      · exact ⟨congrArg (fun x => x.2.1) hr, congrArg (fun x => x.2.2) hr⟩
    subst h1; subst h2; subst h3
    refine ⟨le_rfl, fun i h1 h2 => absurd (lt_of_le_of_lt h1 h2) (lt_irrefl _), ?_, rfl, ?_⟩
    · simp
    · intro k
      rw [if_neg (by omega)]
  | succ fuel ih =>
    intro wc m out wcf mf outf hlen hr
    show _
    rw [show flushLoop (fuel + 1) wc m out = (match lookupChunk m wc with
      | some p => flushLoop fuel (wc + 1) (eraseChunk m wc) (out ++ p)
      | none => (wc, m, out)) from rfl] at hr
    match hwc : lookupChunk m wc with
    | none =>
      rw [hwc] at hr
      obtain ⟨h1, h2, h3⟩ : wc = wcf ∧ m = mf ∧ out = outf :=
        ⟨congrArg Prod.fst hr, congrArg (fun x => x.2.1) hr,
          congrArg (fun x => x.2.2) hr⟩
      subst h1; subst h2; subst h3
      refine ⟨le_rfl, fun i ha hb => absurd (lt_of_le_of_lt ha hb) (lt_irrefl _),
        by simp, hwc, fun k => by rw [if_neg (by omega)]⟩
    | some p =>
      rw [hwc] at hr
      have hlen2 : (eraseChunk m wc).length ≤ fuel := by
        have := eraseChunk_length_lt m wc (by rw [hwc]; simp)
        omega
      obtain ⟨ih1, ih2, ih3, ih4, ih5⟩ :=
        ih (wc + 1) (eraseChunk m wc) (out ++ p) wcf mf outf hlen2 hr
      have hwclt : wc < wcf := by omega
      refine ⟨by omega, ?_, ?_, ?_, ?_⟩
      · intro i ha hb
        rcases Nat.eq_or_lt_of_le ha with hi | hi
        · rw [← hi, hwc]; simp
        · have := ih2 i (by omega) hb
          rw [lookupChunk_erase_ne m wc i (by omega)] at this
          exact this
      · have hsplit : List.range' wc (wcf - wc) = wc :: List.range' (wc + 1) (wcf - (wc + 1)) := by
          rw [show wcf - wc = (wcf - (wc + 1)) + 1 from by omega]
          rfl
        rw [ih3, hsplit, List.flatMap_cons, hwc]
        rw [flatMap_congr_mem _ _ (fun i => (lookupChunk m i).getD [])
          (fun i hi => by
            have := (List.mem_range'_1.mp hi).1
            rw [lookupChunk_erase_ne m wc i (by omega)])]
        simp [List.append_assoc]
      · rw [← lookupChunk_erase_ne m wc wcf (by omega)]
        exact ih4
      · intro k
        by_cases hk : k = wc
        · subst hk
          rw [ih5 k, if_neg (by omega), if_pos (by omega), lookupChunk_erase_self]
        · rw [ih5 k]
          by_cases hk2 : wc + 1 ≤ k ∧ k < wcf
          · rw [if_pos hk2, if_pos (by omega)]
          · rw [if_neg hk2, if_neg (by omega), lookupChunk_erase_ne m wc k hk]

/-- Invariant of an open transfer session after the chunks whose sequence
numbers lie in `S` have been handled (`chunk` gives each sequence's
payload): the cursor sits just past the contiguous received prefix, the
written bytes are exactly the chunks below the cursor in order, and the
pending map holds exactly the received chunks at or above the cursor. -/
def SessionInv (chunk : Nat → List Nat) (S : List Nat) (st : SrvState) : Prop :=
  1 ≤ st.write_cursor ∧
  (∀ k, 1 ≤ k → k < st.write_cursor → k ∈ S) ∧
  st.write_cursor ∉ S ∧
  st.written = (List.range' 1 (st.write_cursor - 1)).flatMap chunk ∧
  (∀ k, lookupChunk st.received_chunks k =
    if k ∈ S ∧ st.write_cursor ≤ k then some (chunk k) else none) ∧
  st.output_open = true

theorem SessionInv_congr (chunk : Nat → List Nat) (S1 S2 : List Nat) (st : SrvState)
    (hmem : ∀ k, k ∈ S1 ↔ k ∈ S2) (h : SessionInv chunk S1 st) :
    SessionInv chunk S2 st := by
  obtain ⟨h1, h2, h3, h4, h5, h6⟩ := h
  refine ⟨h1, fun k hk1 hk2 => (hmem k).mp (h2 k hk1 hk2),
    fun hc => h3 ((hmem _).mpr hc), h4, fun k => ?_, h6⟩
  rw [h5 k]
  by_cases hk : k ∈ S1 ∧ st.write_cursor ≤ k
  · rw [if_pos hk, if_pos ⟨(hmem k).mp hk.1, hk.2⟩]
  · rw [if_neg hk, if_neg (fun hc => hk ⟨(hmem k).mpr hc.1, hc.2⟩)]

theorem flush_chunks_open (st : SrvState) (h : st.output_open = true) :
    flush_chunks st = { st with
      write_cursor := (flushLoop st.received_chunks.length st.write_cursor
        st.received_chunks st.written).1
      received_chunks := (flushLoop st.received_chunks.length st.write_cursor
        st.received_chunks st.written).2.1
      written := (flushLoop st.received_chunks.length st.write_cursor
        st.received_chunks st.written).2.2 } := by
  unfold flush_chunks
  rw [if_pos h]

/-- Handling a DATA frame for a not-yet-received sequence `s ≥ 1`
preserves the session invariant with `s` added to the received set, and
leaves the recorded filename and announced chunk count unchanged. -/
theorem handle_data_inv (chunk : Nat → List Nat) (S : List Nat) (st : SrvState)
    (s : Nat) (hinv : SessionInv chunk S st) (hs1 : 1 ≤ s) (hsS : s ∉ S) :
    SessionInv chunk (s :: S) (handle_data st s (chunk s)) ∧
    (handle_data st s (chunk s)).filename = st.filename ∧
    (handle_data st s (chunk s)).total_chunks = st.total_chunks := by
  obtain ⟨h1, h2, h3, h4, h5, h6⟩ := hinv
  have hwcs : st.write_cursor ≤ s := by
    by_contra hlt
    exact hsS (h2 s hs1 (by omega))
  have hm1 : ∀ k, lookupChunk (insertChunk st.received_chunks s (chunk s)) k =
      if k ∈ s :: S ∧ st.write_cursor ≤ k then some (chunk k) else none := by
    intro k
    by_cases hk : k = s
    · subst hk
      rw [lookupChunk_insert_self, if_pos ⟨by simp, hwcs⟩]
    · rw [lookupChunk_insert_ne _ _ _ _ hk, h5 k]
      by_cases hc : k ∈ S ∧ st.write_cursor ≤ k
      · rw [if_pos hc, if_pos ⟨by simp [hc.1], hc.2⟩]
      · rw [if_neg hc, if_neg (fun hc2 => hc ⟨by
          rcases List.mem_cons.mp hc2.1 with h | h
          · exact absurd h hk
          · exact h, hc2.2⟩)]
  unfold handle_data
  rw [flush_chunks_open { st with
      received_chunks := insertChunk st.received_chunks s (chunk s) } h6]
  dsimp only
  rcases hfl : flushLoop (insertChunk st.received_chunks s (chunk s)).length
      st.write_cursor (insertChunk st.received_chunks s (chunk s)) st.written
    with ⟨wcf, mf, outf⟩
  obtain ⟨s1, s2, s3, s4, s5⟩ := flushLoop_spec
    (insertChunk st.received_chunks s (chunk s)).length st.write_cursor
    (insertChunk st.received_chunks s (chunk s)) st.written wcf mf outf le_rfl hfl
  have hrange : ∀ i, st.write_cursor ≤ i → i < wcf →
      lookupChunk (insertChunk st.received_chunks s (chunk s)) i = some (chunk i) ∧
        i ∈ s :: S := by
    intro i hi1 hi2
    have hne := s2 i hi1 hi2
    rw [hm1 i] at hne ⊢
    by_cases hc : i ∈ s :: S ∧ st.write_cursor ≤ i
    · rw [if_pos hc]; exact ⟨rfl, hc.1⟩
    · rw [if_neg hc] at hne; exact absurd rfl hne
  have hwcfS : wcf ∉ s :: S := by
    intro hc
    have hx := hm1 wcf
    rw [if_pos ⟨hc, s1⟩, s4] at hx
    exact Option.noConfusion hx
  unfold send_ack SessionInv
  dsimp only
  refine ⟨⟨by omega, ?_, hwcfS, ?_, ?_, h6⟩, rfl, rfl⟩
  · intro k hk1 hk2
    by_cases hk : k < st.write_cursor
    · exact List.mem_cons_of_mem _ (h2 k hk1 hk)
    · exact (hrange k (by omega) hk2).2
  · rw [s3, h4, flatMap_congr_mem
      (List.range' st.write_cursor (wcf - st.write_cursor))
      (fun i => (lookupChunk (insertChunk st.received_chunks s (chunk s)) i).getD [])
      chunk (fun i hi => by
        have hmem := List.mem_range'_1.mp hi
        dsimp only
        rw [(hrange i hmem.1 (by omega)).1]
        rfl), ← List.flatMap_append]
    congr 1
    have happ := List.range'_append 1 (st.write_cursor - 1) (wcf - st.write_cursor) 1
    rw [show 1 + 1 * (st.write_cursor - 1) = st.write_cursor from by omega] at happ
    rw [show wcf - st.write_cursor + (st.write_cursor - 1) = wcf - 1 from by omega]
      at happ
    exact happ
  · intro k
    rw [s5 k]
    by_cases hk : st.write_cursor ≤ k ∧ k < wcf
    · rw [if_pos hk, if_neg (fun hc => by omega)]
    · rw [if_neg hk, hm1 k]
      by_cases hc : k ∈ s :: S ∧ st.write_cursor ≤ k
      · rw [if_pos hc, if_pos ⟨hc.1, by omega⟩]
      · rw [if_neg hc, if_neg (fun hc2 => hc ⟨hc2.1, by omega⟩)]

theorem handle_packet_data (st : SrvState) (seq : Nat) (data : List Nat) :
    handle_packet st TYPE_DATA seq data = some (handle_data st seq data) := rfl

theorem handle_packet_fin (st : SrvState) (seq : Nat) (data : List Nat) :
    handle_packet st TYPE_FIN seq data = handle_fin st seq := rfl

theorem handle_packet_metadata (st : SrvState) (seq : Nat) (data : List Nat) :
    handle_packet st TYPE_METADATA seq data = some (handle_metadata st seq data) := rfl

theorem runServer_append (st : SrvState) (l1 l2 : List (Nat × Nat × List Nat)) :
    runServer st (l1 ++ l2) = match runServer st l1 with
      | some st1 => runServer st1 l2
      | none => none := by
  induction l1 generalizing st with
  | nil => rfl
  | cons f rest ih =>
    show runServer st (f :: (rest ++ l2)) = _
    rw [show runServer st (f :: (rest ++ l2)) = (match handle_packet st f.1 f.2.1 f.2.2 with
      | some st1 => runServer st1 (rest ++ l2)
      | none => none) from rfl]
    rw [show runServer st (f :: rest) = (match handle_packet st f.1 f.2.1 f.2.2 with
      | some st1 => runServer st1 rest
      | none => none) from rfl]
    match handle_packet st f.1 f.2.1 f.2.2 with
    | some st1 => exact ih st1
    | none => rfl

/-- Running the server over DATA frames for a list of fresh sequence
numbers preserves the session invariant, accumulating the received
set. -/
theorem runServer_data_inv (chunk : Nat → List Nat) :
    ∀ (order : List Nat) (S : List Nat) (st : SrvState),
      SessionInv chunk S st → order.Nodup → (∀ s ∈ order, 1 ≤ s ∧ s ∉ S) →
      ∃ stf, runServer st (order.map (fun s => (TYPE_DATA, s, chunk s))) = some stf ∧
        SessionInv chunk (order ++ S) stf ∧
        stf.filename = st.filename ∧ stf.total_chunks = st.total_chunks := by
  intro order
  induction order with
  | nil =>
    intro S st hinv hnd helem
    exact ⟨st, rfl, hinv, rfl, rfl⟩
  | cons s rest ih =>
    intro S st hinv hnd helem
    obtain ⟨hstep, hfn, htc⟩ := handle_data_inv chunk S st s hinv
      (helem s (by simp)).1 (helem s (by simp)).2
    have hnd2 : rest.Nodup := (List.nodup_cons.mp hnd).2
    have helem2 : ∀ x ∈ rest, 1 ≤ x ∧ x ∉ s :: S := by
      intro x hx
      refine ⟨(helem x (by simp [hx])).1, ?_⟩
      intro hmem
      rcases List.mem_cons.mp hmem with h | h
      · exact (List.nodup_cons.mp hnd).1 (h ▸ hx)
      · exact (helem x (by simp [hx])).2 h
    obtain ⟨stf, hrun, hinvf, hfnf, htcf⟩ :=
      ih (s :: S) (handle_data st s (chunk s)) hstep hnd2 helem2
    refine ⟨stf, ?_, ?_, by rw [hfnf, hfn], by rw [htcf, htc]⟩
    · show runServer st ((TYPE_DATA, s, chunk s) ::
        rest.map (fun x => (TYPE_DATA, x, chunk x))) = some stf
      rw [show runServer st ((TYPE_DATA, s, chunk s) ::
          rest.map (fun x => (TYPE_DATA, x, chunk x))) =
        (match handle_packet st TYPE_DATA s (chunk s) with
          | some st1 => runServer st1 (rest.map (fun x => (TYPE_DATA, x, chunk x)))
          | none => none) from rfl]
      rw [handle_packet_data]
      exact hrun
    · exact SessionInv_congr chunk (rest ++ (s :: S)) ((s :: rest) ++ S) stf
        (fun k => by simp; tauto) hinvf

theorem flushLoop_stop (m : List (Nat × List Nat)) (wc : Nat) (out : List Nat)
    (h : lookupChunk m wc = none) :
    ∀ fuel, flushLoop fuel wc m out = (wc, m, out) := by
  intro fuel
  cases fuel with
  | zero => rfl
  | succ n =>
    show (match lookupChunk m wc with
      | some p => flushLoop n (wc + 1) (eraseChunk m wc) (out ++ p)
      | none => (wc, m, out)) = (wc, m, out)
    rw [h]

theorem flush_chunks_noop (st : SrvState)
    (h : lookupChunk st.received_chunks st.write_cursor = none) :
    flush_chunks st = st := by
  unfold flush_chunks
  by_cases hopen : st.output_open = true
  · rw [if_pos hopen, flushLoop_stop st.received_chunks st.write_cursor st.written h]
  · rw [if_neg hopen]

theorem handle_fin_complete (st : SrvState) (seq : Nat)
    (hnone : lookupChunk st.received_chunks st.write_cursor = none)
    (htc : st.total_chunks < st.write_cursor)
    (nm : List Nat) (hfn : st.filename = some nm) :
    handle_fin st seq =
      some { st with acks := st.acks ++ [seq]
                     output_open := false
                     stopped := true } := by
  unfold handle_fin send_ack
  rw [flush_chunks_noop { st with acks := st.acks ++ [seq] } hnone]
  dsimp only
  rw [if_pos htc, hfn]

theorem handle_metadata_open (st : SrvState) (seq total : Nat)
    (fname safe : List Nat) (htotal : total < 4294967296)
    (hvalid : ∀ c ∈ fname, ValidScalar c)
    (hsan : sanitize_filename fname = some safe) :
    handle_metadata st seq (encode_metadata total fname) =
      { st with total_chunks := total
                filename := some safe
                received_chunks := []
                write_cursor := 1
                output_open := true
                written := []
                acks := st.acks ++ [seq] } := by
  unfold handle_metadata
  rw [decode_encode_metadata total fname htotal hvalid]
  dsimp only
  rw [hsan]
  rfl

theorem openSession_inv (chunk : Nat → List Nat) (st : SrvState)
    (hwc : st.write_cursor = 1) (hrc : st.received_chunks = [])
    (hw : st.written = []) (hopen : st.output_open = true) :
    SessionInv chunk [] st := by
  refine ⟨by omega, fun k hk1 hk2 => by omega, by simp, ?_, ?_, hopen⟩
  · rw [hw, hwc]
    rfl
  · intro k
    rw [hrc, lookupChunk_nil, if_neg (fun hc => List.not_mem_nil k hc.1)]

theorem runServer_cons (st : SrvState) (f : Nat × Nat × List Nat)
    (rest : List (Nat × Nat × List Nat)) :
    runServer st (f :: rest) = match handle_packet st f.1 f.2.1 f.2.2 with
      | some st1 => runServer st1 rest
      | none => none := rfl

/-- C1: starting from a fresh server, a valid METADATA for `N` chunks
followed by the DATA frames for sequences 1..N in any order and a FIN
leaves exactly the concatenation of the chunk payloads in sequence order
in the output file, with the cursor past `N` and the session closed; and
after any prefix of the DATA frames, the bytes written are exactly the
chunks of the contiguous received prefix in order, every received chunk
at or above the cursor being held pending. -/
theorem server_reassembly (N : Nat) (chunk : Nat → List Nat) (order : List Nat)
    (fname safe : List Nat)
    (hperm : order.Perm (List.range' 1 N))
    (hvalid : ∀ c ∈ fname, ValidScalar c)
    (hN : N < 4294967296)
    (hsan : sanitize_filename fname = some safe) :
    (∃ stf, runServer initServer
        ((TYPE_METADATA, 0, encode_metadata N fname) ::
          (order.map (fun s => (TYPE_DATA, s, chunk s)) ++ [(TYPE_FIN, N + 1, [])])) =
        some stf ∧
      stf.written = (List.range' 1 N).flatMap chunk ∧
      stf.write_cursor = N + 1 ∧ stf.output_open = false ∧ stf.stopped = true) ∧
    (∀ pre suf, order = pre ++ suf →
      ∃ st, runServer initServer
          ((TYPE_METADATA, 0, encode_metadata N fname) ::
            pre.map (fun s => (TYPE_DATA, s, chunk s))) = some st ∧
        st.written = (List.range' 1 (st.write_cursor - 1)).flatMap chunk ∧
        (∀ k ∈ pre, st.write_cursor ≤ k →
          lookupChunk st.received_chunks k = some (chunk k))) := by
  have hmeta := handle_metadata_open initServer 0 N fname safe hN hvalid hsan
  have hstep : ∀ L, runServer initServer
      ((TYPE_METADATA, 0, encode_metadata N fname) :: L) =
      runServer (handle_metadata initServer 0 (encode_metadata N fname)) L := by
    intro L
    rw [runServer_cons]
    rfl
  have hinv0 : SessionInv chunk []
      (handle_metadata initServer 0 (encode_metadata N fname)) :=
    openSession_inv chunk _ (by rw [hmeta]) (by rw [hmeta]) (by rw [hmeta])
      (by rw [hmeta])
  have hfn0 : (handle_metadata initServer 0 (encode_metadata N fname)).filename =
      some safe := by rw [hmeta]
  have htc0 : (handle_metadata initServer 0 (encode_metadata N fname)).total_chunks =
      N := by rw [hmeta]
  have hnd : order.Nodup := hperm.nodup_iff.mpr (List.nodup_range' 1 N 1 Nat.one_pos)
  have helem : ∀ s ∈ order, 1 ≤ s ∧ s ∉ ([] : List Nat) := by
    intro s hs
    exact ⟨(List.mem_range'_1.mp (hperm.mem_iff.mp hs)).1, List.not_mem_nil s⟩
  constructor
  · obtain ⟨st1, hrun1, hinv1, hfn1, htc1⟩ :=
      runServer_data_inv chunk order [] _ hinv0 hnd helem
    have hinv1' : SessionInv chunk (List.range' 1 N) st1 :=
      SessionInv_congr chunk (order ++ []) (List.range' 1 N) st1
        (fun k => by rw [List.append_nil]; exact hperm.mem_iff) hinv1
    obtain ⟨i1, i2, i3, i4, i5, i6⟩ := hinv1'
    have hwc : st1.write_cursor = N + 1 := by
      have hub : st1.write_cursor ≤ N + 1 := by
        by_contra hgt
        have hmem := i2 (N + 1) (by omega) (by omega)
        have := List.mem_range'_1.mp hmem
        omega
      rcases Nat.lt_or_ge st1.write_cursor (N + 1) with h | h
      · exact absurd (List.mem_range'_1.mpr ⟨i1, by omega⟩) i3
      · omega
    have hlook : lookupChunk st1.received_chunks st1.write_cursor = none := by
      rw [i5, if_neg]
      intro hc
      have := List.mem_range'_1.mp hc.1
      omega
    have hfin := handle_fin_complete st1 (N + 1) hlook
      (by rw [htc1, htc0, hwc]; omega) safe (by rw [hfn1, hfn0])
    refine ⟨{ st1 with acks := st1.acks ++ [N + 1]
                       output_open := false
                       stopped := true }, ?_, i4.trans (by rw [hwc]; simp),
      by dsimp only; rw [hwc], rfl, rfl⟩
    rw [hstep, runServer_append, hrun1]
    dsimp only
    rw [runServer_cons]
    dsimp only
    rw [show handle_packet st1 TYPE_FIN (N + 1) [] = handle_fin st1 (N + 1) from rfl,
      hfin]
    rfl
  · intro pre suf heq
    have hndpre : pre.Nodup := hnd.sublist (heq ▸ List.sublist_append_left pre suf)
    have helempre : ∀ s ∈ pre, 1 ≤ s ∧ s ∉ ([] : List Nat) := by
      intro s hs
      exact helem s (heq ▸ List.mem_append.mpr (Or.inl hs))
    obtain ⟨st', hrun', hinv', hfn', htc'⟩ :=
      runServer_data_inv chunk pre [] _ hinv0 hndpre helempre
    obtain ⟨j1, j2, j3, j4, j5, j6⟩ := hinv'
    refine ⟨st', by rw [hstep]; exact hrun', j4, ?_⟩
    intro k hk hwck
    rw [j5 k, if_pos ⟨List.mem_append.mpr (Or.inl hk), hwck⟩]

/-- Witness for C1: N = 2 with chunks delivered out of order ([2, 1]). -/
theorem server_reassembly_witness :
    (∃ stf, runServer initServer
        ((TYPE_METADATA, 0, encode_metadata 2 [102]) ::
          (([2, 1] : List Nat).map (fun s => (TYPE_DATA, s, [s])) ++
            [(TYPE_FIN, 2 + 1, [])])) = some stf ∧
      stf.written = (List.range' 1 2).flatMap (fun s => [s]) ∧
      stf.write_cursor = 2 + 1 ∧ stf.output_open = false ∧ stf.stopped = true) ∧
    (∀ pre suf, ([2, 1] : List Nat) = pre ++ suf →
      ∃ st, runServer initServer
          ((TYPE_METADATA, 0, encode_metadata 2 [102]) ::
            pre.map (fun s => (TYPE_DATA, s, [s]))) = some st ∧
        st.written = (List.range' 1 (st.write_cursor - 1)).flatMap (fun s => [s]) ∧
        (∀ k ∈ pre, st.write_cursor ≤ k →
          lookupChunk st.received_chunks k = some [k])) :=
  server_reassembly 2 (fun s => [s]) [2, 1] [102] [102] (by decide) (by decide)
    (by decide) (by decide)

theorem flush_chunks_closed (st : SrvState) (h : st.output_open = false) :
    flush_chunks st = st := by
  unfold flush_chunks
  rw [if_neg (by rw [h]; simp)]

/-- C2 counterexample: a DATA frame reaching the fresh server (no session
ever opened) is not ignored: the payload is recorded in the pending map
and an ACK for its sequence is sent. -/
theorem data_no_session_counterexample :
    (handle_packet initServer TYPE_DATA 1 [7]).map SrvState.acks = some [1] ∧
    (handle_packet initServer TYPE_DATA 1 [7]).map SrvState.received_chunks =
      some [(1, [7])] ∧
    handle_packet initServer TYPE_DATA 1 [7] ≠ some initServer := by
  decide

/-- C2 amended: with no open output file, a DATA frame still records its
payload in the pending map and is ACKed (only the write to the sink is
skipped); a FIN is ACKed and then either crashes in the success log
(`os.path.join(output_dir, None)` raises `TypeError` when no filename
was ever recorded) or, when the transfer is incomplete, sets the stop
flag. -/
theorem no_session_behavior (st : SrvState) (seq : Nat) (data : List Nat)
    (h : st.output_open = false) :
    handle_packet st TYPE_DATA seq data =
      some { st with received_chunks := insertChunk st.received_chunks seq data
                     acks := st.acks ++ [seq] } ∧
    (st.total_chunks < st.write_cursor → st.filename = none →
      handle_packet st TYPE_FIN seq data = none) ∧
    (st.write_cursor ≤ st.total_chunks →
      handle_packet st TYPE_FIN seq data =
        some { st with acks := st.acks ++ [seq]
                       output_open := false
                       stopped := true }) := by
  refine ⟨?_, ?_, ?_⟩
  · rw [handle_packet_data]
    unfold handle_data
    rw [flush_chunks_closed
      { st with received_chunks := insertChunk st.received_chunks seq data } h]
    rfl
  · intro htc hfn
    rw [handle_packet_fin]
    unfold handle_fin send_ack
    rw [flush_chunks_closed { st with acks := st.acks ++ [seq] } h]
    dsimp only
    rw [if_pos htc, hfn]
  · intro htc
    rw [handle_packet_fin]
    unfold handle_fin send_ack
    rw [flush_chunks_closed { st with acks := st.acks ++ [seq] } h]
    dsimp only
    rw [if_neg (by omega)]

/-- Witness for the C2 amendment at concrete states: the fresh server for
DATA and FIN (FIN crashes: cursor 1 > announced 0 chunks and no filename),
and a no-session state with a nonzero announced chunk count for the
stopping FIN branch. -/
theorem no_session_behavior_witness :
    handle_packet initServer TYPE_DATA 1 [7] =
      some { initServer with
        received_chunks := insertChunk initServer.received_chunks 1 [7]
        acks := initServer.acks ++ [1] } ∧
    handle_packet initServer TYPE_FIN 5 [] = none ∧
    handle_packet { initServer with total_chunks := 3 } TYPE_FIN 5 [] =
      some { { initServer with total_chunks := 3 } with
        acks := ({ initServer with total_chunks := 3 } : SrvState).acks ++ [5]
        output_open := false
        stopped := true } :=
  ⟨(no_session_behavior initServer 1 [7] rfl).1,
   (no_session_behavior initServer 5 [] rfl).2.1 (by decide) rfl,
   (no_session_behavior { initServer with total_chunks := 3 } 5 [] rfl).2.2
     (by decide)⟩

/-- The pending-map clause of the claimed TransferSession invariant:
every pending entry's sequence number is at least the write cursor. -/
def PendingAtOrAboveCursor (st : SrvState) : Prop :=
  ∀ e ∈ st.received_chunks, st.write_cursor ≤ e.1

instance (st : SrvState) : Decidable (PendingAtOrAboveCursor st) := by
  unfold PendingAtOrAboveCursor
  infer_instance

/-- C3 counterexample: after METADATA for one chunk, DATA 1, and a
duplicate DATA 1, the duplicate's entry stays in the pending map at
sequence 1 while the write cursor is 2, so the pending map does not hold
only sequences ≥ cursor, and the duplicate frame did leave an entry. -/
theorem pending_invariant_counterexample :
    runServer initServer
        [(TYPE_METADATA, 0, encode_metadata 1 [102]), (TYPE_DATA, 1, [7]),
          (TYPE_DATA, 1, [7])] =
      some { received_chunks := [(1, [7])]
             filename := some [102]
             total_chunks := 1
             write_cursor := 2
             output_open := true
             written := [7]
             acks := [0, 1, 1]
             stopped := false } ∧
    ¬ PendingAtOrAboveCursor
      { received_chunks := [(1, [7])]
        filename := some [102]
        total_chunks := 1
        write_cursor := 2
        output_open := true
        written := [7]
        acks := [0, 1, 1]
        stopped := false } := by
  decide

theorem flush_chunks_advance (st : SrvState) :
    st.write_cursor ≤ (flush_chunks st).write_cursor ∧
    (∃ f : Nat → List Nat, (flush_chunks st).written = st.written ++
      (List.range' st.write_cursor
        ((flush_chunks st).write_cursor - st.write_cursor)).flatMap f) ∧
    (flush_chunks st).output_open = st.output_open ∧
    (flush_chunks st).acks = st.acks ∧
    (flush_chunks st).filename = st.filename ∧
    (flush_chunks st).total_chunks = st.total_chunks ∧
    (flush_chunks st).stopped = st.stopped := by
  by_cases h : st.output_open = true
  · rw [flush_chunks_open st h]
    dsimp only
    rcases hfl : flushLoop st.received_chunks.length st.write_cursor
        st.received_chunks st.written with ⟨wcf, mf, outf⟩
    obtain ⟨s1, s2, s3, s4, s5⟩ := flushLoop_spec st.received_chunks.length
      st.write_cursor st.received_chunks st.written wcf mf outf le_rfl hfl
    exact ⟨s1, ⟨fun i => (lookupChunk st.received_chunks i).getD [], s3⟩,
      rfl, rfl, rfl, rfl, rfl⟩
  · rw [flush_chunks_closed st (by revert h; cases st.output_open <;> simp)]
    exact ⟨le_rfl, ⟨fun _ => [], by simp⟩, rfl, rfl, rfl, rfl, rfl⟩

/-- C3 amended: over DATA and FIN frames the write cursor never
decreases and bytes are appended to the sink only as one block per
sequence position, in contiguous increasing cursor order; but the
pending map may retain an entry below the cursor: a duplicate DATA for
an already-flushed sequence is stored (and ACKed) yet never written
again, the write cursor and the sink staying unchanged. -/
theorem data_fin_cursor_monotone (st : SrvState) (ptype seq : Nat)
    (data : List Nat) (st2 : SrvState)
    (hty : ptype = TYPE_DATA ∨ ptype = TYPE_FIN)
    (hres : handle_packet st ptype seq data = some st2) :
    st.write_cursor ≤ st2.write_cursor ∧
    (∃ f : Nat → List Nat, st2.written = st.written ++
      (List.range' st.write_cursor
        (st2.write_cursor - st.write_cursor)).flatMap f) ∧
    (ptype = TYPE_DATA → seq < st.write_cursor →
      lookupChunk st.received_chunks st.write_cursor = none →
      st2.write_cursor = st.write_cursor ∧ st2.written = st.written ∧
      lookupChunk st2.received_chunks seq = some data) := by
  rcases hty with hty | hty
  · subst hty
    rw [handle_packet_data] at hres
    injection hres with hres
    subst hres
    unfold handle_data send_ack
    obtain ⟨a1, a2, a3, a4, a5, a6, a7⟩ := flush_chunks_advance
      { st with received_chunks := insertChunk st.received_chunks seq data }
    refine ⟨a1, a2, ?_⟩
    intro _ hlt hnone
    have hnoop : flush_chunks
        { st with received_chunks := insertChunk st.received_chunks seq data } =
        { st with received_chunks := insertChunk st.received_chunks seq data } :=
      flush_chunks_noop _ (by
        dsimp only
        rw [lookupChunk_insert_ne _ _ _ _ (by omega)]
        exact hnone)
    rw [hnoop]
    exact ⟨rfl, rfl, lookupChunk_insert_self _ _ _⟩
  · subst hty
    rw [handle_packet_fin] at hres
    unfold handle_fin at hres
    dsimp only at hres
    obtain ⟨a1, a2, a3, a4, a5, a6, a7⟩ := flush_chunks_advance
      { st with acks := st.acks ++ [seq] }
    split at hres
    · split at hres
      · exact absurd hres (by simp)
      · injection hres with hres
        subst hres
        exact ⟨a1, a2, fun hdf => by simp [TYPE_DATA, TYPE_FIN] at hdf⟩
    · injection hres with hres
      subst hres
      exact ⟨a1, a2, fun hdf => by simp [TYPE_DATA, TYPE_FIN] at hdf⟩

/-- Witness for the C3 amendment: a duplicate DATA for already-flushed
sequence 1 at cursor 2 leaves cursor and sink unchanged but stores the
entry below the cursor. -/
theorem data_fin_cursor_monotone_witness :
    (2 : Nat) ≤ 2 ∧
    (∃ f : Nat → List Nat,
      ([7] : List Nat) = [7] ++ (List.range' 2 (2 - 2)).flatMap f) ∧
    (TYPE_DATA = TYPE_DATA → 1 < 2 →
      lookupChunk [] 2 = none →
      (2 : Nat) = 2 ∧ ([7] : List Nat) = [7] ∧
        lookupChunk [(1, [7])] 1 = some [7]) :=
  data_fin_cursor_monotone
    { received_chunks := []
      filename := some [102]
      total_chunks := 1
      write_cursor := 2
      output_open := true
      written := [7]
      acks := [0, 1]
      stopped := false }
    TYPE_DATA 1 [7]
    { received_chunks := [(1, [7])]
      filename := some [102]
      total_chunks := 1
      write_cursor := 2
      output_open := true
      written := [7]
      acks := [0, 1, 1]
      stopped := false }
    (Or.inl rfl) (by decide)

theorem flushLoop_one (wc seq : Nat) (data out : List Nat) :
    flushLoop 1 wc [(seq, data)] out =
      if seq = wc then (wc + 1, ([], out ++ data))
      else (wc, ([(seq, data)], out)) := by
  show (match lookupChunk [(seq, data)] wc with
    | some p => flushLoop 0 (wc + 1) (eraseChunk [(seq, data)] wc) (out ++ p)
    | none => (wc, [(seq, data)], out)) = _
  rw [lookupChunk_cons]
  by_cases h : seq = wc
  · rw [if_pos h, if_pos h]
    dsimp only
    have herase : eraseChunk [(seq, data)] wc = [] := by
      rw [eraseChunk_cons, if_pos h]
      rfl
    rw [herase]
    rfl
  · rw [if_neg h, if_neg h]
    rfl

/-- C10: while an output file is open (and taking a state with an empty
pending map for a sharp description), the DATA handler accepts any
sequence number whatsoever — 0 or beyond the announced total alike, with
no comparison against 1..total_chunks: the payload is stored, the
sequence is ACKed, and the bytes are written to the sink as soon as the
sequence equals the cursor, so nothing stops a sender from making the
server write more than `total_chunks` chunks. -/
theorem data_no_sequence_validation (st : SrvState) (seq : Nat) (data : List Nat)
    (hopen : st.output_open = true) (hpend : st.received_chunks = []) :
    handle_packet st TYPE_DATA seq data =
      some (if seq = st.write_cursor
        then { st with received_chunks := []
                       write_cursor := st.write_cursor + 1
                       written := st.written ++ data
                       acks := st.acks ++ [seq] }
        else { st with received_chunks := [(seq, data)]
                       acks := st.acks ++ [seq] }) := by
  rw [handle_packet_data]
  unfold handle_data send_ack
  have hins : insertChunk st.received_chunks seq data = [(seq, data)] := by
    rw [hpend]
    rfl
  rw [flush_chunks_open
    { st with received_chunks := insertChunk st.received_chunks seq data } hopen]
  dsimp only
  rw [hins]
  simp only [List.length_cons, List.length_nil, Nat.zero_add]
  rw [flushLoop_one]
  by_cases hseq : seq = st.write_cursor
  · rw [if_pos hseq, if_pos hseq]
  · rw [if_neg hseq, if_neg hseq]

/-- Witness for C10: with one chunk already flushed (cursor 2) and one
announced chunk in total, DATA with sequence 2 — beyond total_chunks —
is still written to the sink; and DATA with sequence 0 is stored
pending. -/
theorem data_no_sequence_validation_witness :
    handle_packet
        { received_chunks := []
          filename := some [102]
          total_chunks := 1
          write_cursor := 2
          output_open := true
          written := [7]
          acks := [0, 1]
          stopped := false }
        TYPE_DATA 2 [9] =
      some { received_chunks := []
             filename := some [102]
             total_chunks := 1
             write_cursor := 3
             output_open := true
             written := [7, 9]
             acks := [0, 1, 2]
             stopped := false } ∧
    handle_packet
        { received_chunks := []
          filename := some [102]
          total_chunks := 1
          write_cursor := 2
          output_open := true
          written := [7]
          acks := [0, 1]
          stopped := false }
        TYPE_DATA 0 [9] =
      some { received_chunks := [(0, [9])]
             filename := some [102]
             total_chunks := 1
             write_cursor := 2
             output_open := true
             written := [7]
             acks := [0, 1, 0]
             stopped := false } := by
  constructor
  · rw [data_no_sequence_validation _ 2 [9] rfl rfl]
    decide
  · rw [data_no_sequence_validation _ 0 [9] rfl rfl]
    decide

/-- Modelled from the spec: the echo-suppression adapter
`suppress_kernel_icmp_echo` and its use in `ICMPFileServer.start` are
missing from `src/` (the unit tests import and exercise them).  The
host's global "auto-reply to echo requests" setting is the boolean
sysctl `net.ipv4.icmp_echo_ignore_all`; `ignoreAll = true` means the
kernel does not auto-reply. -/
structure HostEcho where
  ignoreAll : Bool
  deriving Repr, DecidableEq

/-- Modelled from the spec: `suppress_kernel_icmp_echo(enable)` reads the
current sysctl value, writes the requested one, and returns the prior
value; on failure (e.g. insufficient privilege, modelled by
`accessible = false`) it changes nothing and returns an unknown/absent
prior value. -/
def suppress_kernel_icmp_echo (accessible : Bool) (enable : Bool) (h : HostEcho) :
    Option Bool × HostEcho :=
  if accessible then (some h.ignoreAll, { ignoreAll := enable }) else (none, h)

/-- Modelled from the spec: `ICMPFileServer.start` records the prior
value and forces suppression on before listening, listens (which may end
normally or raise, `listenRaises`), and restores the recorded prior
value on every exit path (the restore runs in a `finally` block, hence
also on abnormal exit, which is why `listenRaises` cannot influence the
final host state); an absent prior value is not restored.  Returns the
host state during listening, the final host state, whether listening
proceeded, and the recorded prior value. -/
def server_start_echo (accessible : Bool) (listenRaises : Bool) (h : HostEcho) :
    HostEcho × HostEcho × Bool × Option Bool :=
  let r := suppress_kernel_icmp_echo accessible true h
  let final := match r.1 with
    | some v => (suppress_kernel_icmp_echo accessible v r.2).2
    | none => r.2
  (r.2, final, true, r.1)

/-- C4: the server records the prior auto-reply setting and forces
auto-reply off for the whole listening phase, restoring the recorded
value on every exit path — normal or raising alike; when the setting
cannot be read or written, nothing changes and the server still
proceeds to listen. -/
theorem echo_suppression_spec (accessible listenRaises : Bool) (h : HostEcho) :
    (server_start_echo accessible listenRaises h).2.2.1 = true ∧
    (accessible = true →
      (server_start_echo accessible listenRaises h).2.2.2 = some h.ignoreAll ∧
      (server_start_echo accessible listenRaises h).1.ignoreAll = true ∧
      (server_start_echo accessible listenRaises h).2.1 = h) ∧
    (accessible = false →
      (server_start_echo accessible listenRaises h).2.2.2 = none ∧
      (server_start_echo accessible listenRaises h).1 = h ∧
      (server_start_echo accessible listenRaises h).2.1 = h) := by
  match h with
  | ⟨b⟩ => cases accessible <;> cases listenRaises <;> cases b <;> decide

/-- Witness for C4: a host with auto-reply enabled, both with and without
privilege to toggle the setting, and with the listen phase raising. -/
theorem echo_suppression_spec_witness :
    ((server_start_echo true true ⟨false⟩).2.2.2 = some false ∧
      (server_start_echo true true ⟨false⟩).1.ignoreAll = true ∧
      (server_start_echo true true ⟨false⟩).2.1 = ⟨false⟩) ∧
    ((server_start_echo false false ⟨false⟩).2.2.2 = none ∧
      (server_start_echo false false ⟨false⟩).1 = ⟨false⟩ ∧
      (server_start_echo false false ⟨false⟩).2.1 = ⟨false⟩) ∧
    (server_start_echo true false ⟨true⟩).2.2.1 = true :=
  ⟨(echo_suppression_spec true true ⟨false⟩).2.1 rfl,
   (echo_suppression_spec false false ⟨false⟩).2.2 rfl,
   (echo_suppression_spec true false ⟨true⟩).1⟩
